import Mathlib

set_option maxRecDepth 10000
set_option maxHeartbeats 2000000

/- Shallow embedding of the natural-language task inference engine of the
Checklist-app repository (src/services/nlp.ts and
src/components/DailyPrompt.tsx).  The JavaScript regular expressions used by
that code are embedded through a small backtracking engine that mirrors the
ECMAScript semantics relied on there: leftmost match, ordered alternation,
greedy quantifiers, word boundaries and anchors. -/

namespace JsStr

/-- ECMAScript whitespace class `\s` (also the set trimmed by `String.trim`). -/
def isWsB (c : Char) : Bool :=
  c == ' ' || c == '\t' || c == '\n' || c.toNat == 11 || c.toNat == 12 ||
  c == '\r' || c.toNat == 0xa0 || c.toNat == 0x1680 ||
  (0x2000 ≤ c.toNat && c.toNat ≤ 0x200a) || c.toNat == 0x2028 ||
  c.toNat == 0x2029 || c.toNat == 0x202f || c.toNat == 0x205f ||
  c.toNat == 0x3000 || c.toNat == 0xfeff

/-- ECMAScript word character class `\w`. -/
def isWordB (c : Char) : Bool :=
  ('a' ≤ c && c ≤ 'z') || ('A' ≤ c && c ≤ 'Z') || ('0' ≤ c && c ≤ '9') || c == '_'

/-- ECMAScript digit class `\d`. -/
def isDigitB (c : Char) : Bool := '0' ≤ c && c ≤ '9'

/-- ECMAScript line terminators (the characters `.` does not match). -/
def isLineTermB (c : Char) : Bool :=
  c == '\n' || c == '\r' || c.toNat == 0x2028 || c.toNat == 0x2029

/-- The 26 ASCII letter pairs, used to model `toLowerCase`/`toUpperCase`. -/
def letterPairs : List (Char × Char) :=
  [('A', 'a'), ('B', 'b'), ('C', 'c'), ('D', 'd'), ('E', 'e'), ('F', 'f'),
   ('G', 'g'), ('H', 'h'), ('I', 'i'), ('J', 'j'), ('K', 'k'), ('L', 'l'),
   ('M', 'm'), ('N', 'n'), ('O', 'o'), ('P', 'p'), ('Q', 'q'), ('R', 'r'),
   ('S', 's'), ('T', 't'), ('U', 'u'), ('V', 'v'), ('W', 'w'), ('X', 'x'),
   ('Y', 'y'), ('Z', 'z')]

/-- ASCII model of JavaScript `toLowerCase` on one character. -/
def lowCh (c : Char) : Char :=
  (((letterPairs.find? (fun p => p.1 == c)).map Prod.snd).getD c)

/-- ASCII model of JavaScript `toUpperCase` on one character. -/
def upCh (c : Char) : Char :=
  (((letterPairs.find? (fun p => p.2 == c)).map Prod.fst).getD c)

/-- `text.toLowerCase()` on a character list. -/
def lowerL (l : List Char) : List Char := l.map lowCh

/-- JavaScript `haystack.includes(needle)` (substring containment). -/
def containsSub (h n : List Char) : Bool :=
  match h with
  | [] => n.isEmpty
  | _ :: t => n.isPrefixOf h || containsSub t n

/-- JavaScript `parseInt` on a plain string of decimal digits. -/
def parseDigits (l : List Char) : Nat :=
  l.foldl (fun a c => a * 10 + (c.toNat - 48)) 0

/-- JavaScript `s.trim()` over a character list. -/
def trimJS (l : List Char) : List Char :=
  ((l.dropWhile isWsB).reverse.dropWhile isWsB).reverse

/-- The character list `inp[s..e)`. -/
def sliceL (inp : List Char) (s e : Nat) : List Char := (inp.drop s).take (e - s)

end JsStr

namespace JsRx

open JsStr

/-- Abstract syntax of the regular-expression fragment used by the repository:
character classes, concatenation, ordered alternation, greedy `*` `+` `?`,
one capturing group, word boundary `\b` and the `^` `$` anchors. -/
inductive RE where
  | eps
  | cls (p : Char → Bool)
  | seq (a b : RE)
  | alt (a b : RE)
  | star (a : RE)
  | opt (a : RE)
  | group (a : RE)
  | wb
  | bol
  | eol

/-- Span of capturing group 1 (start, end), when it participated. -/
abbrev G1 := Option (Nat × Nat)

/-- Whether the character at `pos` (if any) is a word character. -/
def isWordAt (inp : List Char) (pos : Nat) : Bool :=
  match inp.get? pos with
  | some c => isWordB c
  | none => false

/-- ECMAScript `\b`: the two sides of `pos` disagree on word-character-ness. -/
def wordBoundaryAt (inp : List Char) (pos : Nat) : Bool :=
  (if pos == 0 then false else isWordAt inp (pos - 1)) != isWordAt inp pos

/-- Backtracking matcher in continuation-passing style.  `mrun inp fuel re pos
g k` tries every way `re` can match `inp` starting at `pos` in ECMAScript
preference order (left alternative first, greedy quantifiers) and hands each
resulting position and capture to `k`, returning the first success.  `fuel`
bounds the recursion depth; every quantifier iteration consumes at least one
character for the regexes embedded here, so the generous fuel chosen by the
callers below never runs out on them. -/
def mrun (inp : List Char) :
    Nat → RE → Nat → G1 → (Nat → G1 → Option (Nat × G1)) → Option (Nat × G1)
  | 0, _, _, _, _ => none
  | f + 1, re, pos, g, k =>
    match re with
    | .eps => k pos g
    | .cls p =>
      match inp.get? pos with
      | some c => if p c then k (pos + 1) g else none
      | none => none
    | .seq a b => mrun inp f a pos g (fun p1 g1 => mrun inp f b p1 g1 k)
    | .alt a b =>
      match mrun inp f a pos g k with
      | some r => some r
      | none => mrun inp f b pos g k
    | .star a =>
      match mrun inp f a pos g
          (fun p1 g1 => if p1 == pos then none else mrun inp f (.star a) p1 g1 k) with
      | some r => some r
      | none => k pos g
    | .opt a =>
      match mrun inp f a pos g k with
      | some r => some r
      | none => k pos g
    | .group a => mrun inp f a pos g (fun p1 _ => k p1 (some (pos, p1)))
    | .wb => if wordBoundaryAt inp pos then k pos g else none
    | .bol => if pos == 0 then k pos g else none
    | .eol => if pos == inp.length then k pos g else none

/-- Fuel that is ample for the embedded regexes on the given input. -/
def mFuel (inp : List Char) : Nat := 3000 + 300 * inp.length

/-- Scan start positions left to right, as ECMAScript regex search does. -/
def searchFrom (inp : List Char) (re : RE) : Nat → Nat → Option (Nat × Nat × G1)
  | _, 0 => none
  | pos, f + 1 =>
    match mrun inp (mFuel inp) re pos none (fun p g => some (p, g)) with
    | some (e, g) => some (pos, e, g)
    | none => if pos < inp.length then searchFrom inp re (pos + 1) f else none

/-- JavaScript `inp.match(re)` restricted to span and group-1 data: the
leftmost match as (start, end, group-1 span). -/
def reFind (inp : List Char) (re : RE) : Option (Nat × Nat × G1) :=
  searchFrom inp re 0 (inp.length + 1)

/-- JavaScript `re.test(inp)`. -/
def reTest (re : RE) (inp : List Char) : Bool := (reFind inp re).isSome

/-- Loop of the global-replace: repeatedly find the next match at or after
`pos` and splice in `repl`; an empty match keeps the current character and
advances one position, as ECMAScript does. -/
def replLoop (inp : List Char) (re : RE) (repl : List Char) : Nat → Nat → List Char
  | pos, 0 => inp.drop pos
  | pos, f + 1 =>
    match searchFrom inp re pos (inp.length + 1 - pos) with
    | none => inp.drop pos
    | some (s, e, _) =>
      let pre := (inp.drop pos).take (s - pos)
      if s < e then pre ++ repl ++ replLoop inp re repl e f
      else
        pre ++ repl ++
          (match inp.get? s with
           | some c => c :: replLoop inp re repl (s + 1) f
           | none => [])

/-- JavaScript `inp.replace(re, repl)` with the `g` flag. -/
def reReplaceAll (inp : List Char) (re : RE) (repl : List Char) : List Char :=
  replLoop inp re repl 0 (inp.length + 2)

/-- JavaScript `inp.replace(re, repl)` without the `g` flag: first match only. -/
def reReplaceFirst (inp : List Char) (re : RE) (repl : List Char) : List Char :=
  match reFind inp re with
  | none => inp
  | some (s, e, _) => inp.take s ++ repl ++ inp.drop e

/-- Loop of `String.split(re)` for a regex without capturing groups. -/
def splitLoop (inp : List Char) (re : RE) : Nat → Nat → List (List Char)
  | pos, 0 => [inp.drop pos]
  | pos, f + 1 =>
    match searchFrom inp re pos (inp.length + 1 - pos) with
    | none => [inp.drop pos]
    | some (s, e, _) =>
      if s < e then ((inp.drop pos).take (s - pos)) :: splitLoop inp re e f
      else [inp.drop pos]

/-- JavaScript `inp.split(re)` (no capturing groups in `re`). -/
def reSplit (inp : List Char) (re : RE) : List (List Char) :=
  splitLoop inp re 0 (inp.length + 2)

/-- Concatenation of a list of regexes. -/
def seqAll : List RE → RE
  | [] => .eps
  | [r] => r
  | r :: rs => .seq r (seqAll rs)

/-- Ordered alternation of a list of regexes (empty list never matches). -/
def altAll : List RE → RE
  | [] => .cls (fun _ => false)
  | [r] => r
  | r :: rs => .alt r (altAll rs)

/-- Case-sensitive single character. -/
def chC (c : Char) : RE := .cls (fun x => x == c)

/-- Case-insensitive single character (the `i` flag). -/
def chI (c : Char) : RE := .cls (fun x => lowCh x == lowCh c)

/-- Case-sensitive literal string. -/
def litS (s : String) : RE := seqAll (s.data.map chC)

/-- Case-insensitive literal string (the `i` flag). -/
def litI (s : String) : RE := seqAll (s.data.map chI)

/-- Greedy `+`. -/
def plusRE (r : RE) : RE := .seq r (.star r)

/-- `\d`, `\w`, `\s` and `.` as regexes. -/
def dC : RE := .cls isDigitB
def wC : RE := .cls isWordB
def sC : RE := .cls isWsB
def anyC : RE := .cls (fun c => !(isLineTermB c))

end JsRx

/-- The `Category` union type of src/types.ts. -/
inductive Category where
  | work
  | health
  | personal
  | finance
  | learning
  | social
deriving DecidableEq, Repr

/-- The `Timeframe` union type of src/types.ts. -/
inductive Timeframe where
  | daily
  | weekly
  | monthly
  | once
deriving DecidableEq, Repr

/-- The `Priority` union type of src/types.ts. -/
inductive Priority where
  | low
  | medium
  | high
deriving DecidableEq, Repr

/-- The `RecurrencePattern` interface of src/types.ts.  The TS field `type`
is embedded as `rtype`; it is a plain string at runtime (values can arrive
from untyped JSON), so it is modelled as `String` rather than a closed
enumeration, which is what makes `formatRecurrence`'s fall-through branch for
an unrecognized type reachable. -/
structure RecurrencePattern where
  rtype : String
  days : Option (List Nat) := none
  dayOfMonth : Option Nat := none
  interval : Option Nat := none
deriving DecidableEq, Repr

namespace Nlp

open JsStr JsRx

/-- `categoryKeywords` of src/services/nlp.ts, in `Object.entries` order
(insertion order of the object literal). -/
def categoryKeywords : List (Category × List String) :=
  [(.work, ["work", "meeting", "email", "project", "deadline", "client",
            "report", "presentation", "office", "boss", "colleague"]),
   (.health, ["gym", "workout", "exercise", "run", "yoga", "doctor",
              "medicine", "walk", "sleep", "diet", "meditate", "stretch"]),
   (.personal, ["home", "clean", "laundry", "grocery", "cook", "organize",
                "declutter", "fix", "repair"]),
   (.finance, ["pay", "bill", "budget", "invest", "bank", "tax", "expense",
               "savings", "money", "rent", "mortgage"]),
   (.learning, ["read", "study", "learn", "course", "book", "practice",
                "tutorial", "class", "lesson", "skill"]),
   (.social, ["call", "visit", "meet", "friend", "family", "party", "dinner",
              "lunch", "birthday", "event"])]

/-- `priorityKeywords` of src/services/nlp.ts, in `Object.entries` order. -/
def priorityKeywords : List (Priority × List String) :=
  [(.high, ["urgent", "important", "critical", "asap", "immediately",
            "priority", "must"]),
   (.medium, ["should", "need to", "plan to"]),
   (.low, ["maybe", "could", "sometime", "eventually", "when possible"])]

/-- Loop body of nlp.ts `detectCategory`: first table row one of whose
keywords occurs in the (lowercased) text wins. -/
def catLoop (lowerText : List Char) : List (Category × List String) → Option Category
  | [] => none
  | (cat, kws) :: rest =>
    if kws.any (fun kw => containsSub lowerText kw.data) then some cat
    else catLoop lowerText rest

/-- `detectCategory` of src/services/nlp.ts. -/
def detectCategory (text : String) : Option Category :=
  catLoop (lowerL text.data) categoryKeywords

/-- Loop body of nlp.ts `detectPriority`, defaulting to medium. -/
def priLoop (lowerText : List Char) : List (Priority × List String) → Priority
  | [] => .medium
  | (pri, kws) :: rest =>
    if kws.any (fun kw => containsSub lowerText kw.data) then pri
    else priLoop lowerText rest

/-- `detectPriority` of src/services/nlp.ts. -/
def detectPriority (text : String) : Priority :=
  priLoop (lowerL text.data) priorityKeywords

/-- `dayNames` of src/services/nlp.ts. -/
def dayNames : List String :=
  ["sunday", "monday", "tuesday", "wednesday", "thursday", "friday", "saturday"]

/-- The weekday alternation `(?:monday|tuesday|wednesday|thursday|friday|saturday|sunday)`. -/
def weekdayAltRE : RE :=
  altAll [litI "monday", litI "tuesday", litI "wednesday", litI "thursday",
          litI "friday", litI "saturday", litI "sunday"]

/-- The separator `(?:\s*(?:,|and)\s*)`. -/
def weekdaySepRE : RE := seqAll [.star sC, altAll [chC ',', litI "and"], .star sC]

/-- nlp.ts line 77: `/every\s+((?:(?:monday|...|sunday)(?:\s*(?:,|and)\s*)?)+)/i`. -/
def everyDaysRE : RE :=
  seqAll [litI "every", plusRE sC,
          .group (plusRE (seqAll [weekdayAltRE, .opt weekdaySepRE]))]

/-- `recurrencePatterns` of src/services/nlp.ts: the ordered regex table with
the TS `type` each row produces.  Rows 7 and 8 capture the numeric interval. -/
def recurrencePatterns : List (RE × String) :=
  [(seqAll [litI "every", plusRE sC, litI "day"], "daily"),
   (litI "daily", "daily"),
   (seqAll [litI "every", plusRE sC, litI "week"], "weekly"),
   (litI "weekly", "weekly"),
   (seqAll [litI "every", plusRE sC, litI "month"], "monthly"),
   (litI "monthly", "monthly"),
   (seqAll [litI "every", plusRE sC, .group (plusRE dC), plusRE sC,
            litI "day", .opt (chI 's')], "daily"),
   (seqAll [litI "every", plusRE sC, .group (plusRE dC), plusRE sC,
            litI "week", .opt (chI 's')], "weekly")]

/-- The `dayNames.forEach` scan of nlp.ts lines 82-86: indices of the day
names contained in the matched weekday list, in index order 0..6. -/
def weekdayIdxs (daysText : List Char) : List Nat :=
  (List.range 7).filter (fun i => containsSub daysText ((dayNames.getD i "").data))

/-- The text of capture group 1 lowercased (`everyDaysMatch[1].toLowerCase()`,
nlp.ts line 79); the group always participates when the regex matches. -/
def weekdayG1Text (lowerText : List Char) : G1 → List Char
  | some (s, e) => lowerL (sliceL lowerText s e)
  | none => []

/-- First branch of nlp.ts `detectRecurrence` (lines 77-91): the explicit
weekday list after "every".  Returns `none` both when the regex does not
match and when no day name is recovered, in which case the source falls
through to the pattern table. -/
def weekdayEveryBranch (lowerText : List Char) : Option RecurrencePattern :=
  match reFind lowerText everyDaysRE with
  | some (_, _, g1) =>
    if (weekdayIdxs (weekdayG1Text lowerText g1)).length > 0 then
      some { rtype := "weekly",
             days := some (weekdayIdxs (weekdayG1Text lowerText g1)),
             interval := some 1 }
    else none
  | none => none

/-- `match[1] ? parseInt(match[1]) : 1` (nlp.ts line 97): the captured digits
when the row has a group (an absent or empty capture is falsy). -/
def tableInterval (lowerText : List Char) : G1 → Nat
  | some (s, e) => if s < e then parseDigits (sliceL lowerText s e) else 1
  | none => 1

/-- Second half of nlp.ts `detectRecurrence` (lines 94-100): first matching
row of the pattern table wins. -/
def tableScan (lowerText : List Char) : List (RE × String) → Option RecurrencePattern
  | [] => none
  | (re, ty) :: rest =>
    match reFind lowerText re with
    | some (_, _, g1) =>
      some { rtype := ty, interval := some (tableInterval lowerText g1) }
    | none => tableScan lowerText rest

/-- `detectRecurrence` of src/services/nlp.ts. -/
def detectRecurrence (text : String) : Option RecurrencePattern :=
  match weekdayEveryBranch (lowerL text.data) with
  | some p => some p
  | none => tableScan (lowerL text.data) recurrencePatterns

/-- nlp.ts line 111: `/every\s+\w+day/i`. -/
def everyWdayRE : RE := seqAll [litI "every", plusRE sC, plusRE wC, litI "day"]

/-- Condition of the `daily` branch of `detectTimeframe`. -/
def tfDailyCond (lowerText : List Char) : Bool :=
  containsSub lowerText "daily".data || containsSub lowerText "every day".data

/-- Condition of the `weekly` branch of `detectTimeframe`. -/
def tfWeeklyCond (lowerText : List Char) : Bool :=
  containsSub lowerText "weekly".data || containsSub lowerText "every week".data ||
    reTest everyWdayRE lowerText

/-- Condition of the `monthly` branch of `detectTimeframe`. -/
def tfMonthlyCond (lowerText : List Char) : Bool :=
  containsSub lowerText "monthly".data || containsSub lowerText "every month".data

/-- The three early-return text branches of `detectTimeframe` (nlp.ts lines
107-117), in source order. -/
def tfTextBranch (lowerText : List Char) : Option Timeframe :=
  if tfDailyCond lowerText then some .daily
  else if tfWeeklyCond lowerText then some .weekly
  else if tfMonthlyCond lowerText then some .monthly
  else none

/-- The due-date distance classification of `detectTimeframe` (nlp.ts lines
119-128), over the day distance `diffDays = Math.ceil((dueDate - now) / day)`
when a due date is present. -/
def distClassify (diffDays : Option Int) : Timeframe :=
  match diffDays with
  | some d =>
    if d ≤ 1 then .daily else if d ≤ 7 then .weekly
    else if d ≤ 30 then .monthly else .once
  | none => .once

/-- `detectTimeframe` of src/services/nlp.ts.  The `dueDate`/`now` pair only
enters through the integer `diffDays`, which is therefore the parameter here;
`none` means no due date was found.  Note the source's text branches are only
scanned under `hasRecurrence`, and that when none of them fires control falls
through to the due-date check. -/
def detectTimeframe (text : String) (hasRecurrence : Bool)
    (diffDays : Option Int) : Timeframe :=
  match (if hasRecurrence then tfTextBranch (lowerL text.data) else none) with
  | some tf => tf
  | none => distClassify diffDays

/-- nlp.ts line 137: `/\b(at|on|by|before|after)\s+\d{1,2}(:\d{2})?\s*(am|pm)?\b/gi`. -/
def ctP1 : RE :=
  seqAll [.wb, altAll [litI "at", litI "on", litI "by", litI "before", litI "after"],
          plusRE sC, dC, .opt dC, .opt (seqAll [chC ':', dC, dC]), .star sC,
          .opt (altAll [litI "am", litI "pm"]), .wb]

/-- nlp.ts line 138: `/\b(today|tomorrow|tonight|this\s+\w+|next\s+\w+)\b/gi`. -/
def ctP2 : RE :=
  seqAll [.wb, altAll [litI "today", litI "tomorrow", litI "tonight",
                       seqAll [litI "this", plusRE sC, plusRE wC],
                       seqAll [litI "next", plusRE sC, plusRE wC]], .wb]

/-- nlp.ts line 139: `/\bevery\s+(day|week|month|\w+day(?:\s*(?:,|and)\s*\w+day)*)\b/gi`. -/
def ctP3 : RE :=
  seqAll [.wb, litI "every", plusRE sC,
          altAll [litI "day", litI "week", litI "month",
                  seqAll [plusRE wC, litI "day",
                          .star (seqAll [.star sC, altAll [chC ',', litI "and"],
                                         .star sC, plusRE wC, litI "day"])]], .wb]

/-- nlp.ts line 140: `/\b(daily|weekly|monthly)\b/gi`. -/
def ctP4 : RE := seqAll [.wb, altAll [litI "daily", litI "weekly", litI "monthly"], .wb]

/-- nlp.ts line 141: `/\b(urgent|important|asap)\b/gi`. -/
def ctP5 : RE := seqAll [.wb, altAll [litI "urgent", litI "important", litI "asap"], .wb]

/-- nlp.ts line 142: `/\b\d{1,2}\/\d{1,2}(?:\/\d{2,4})?\b/g`. -/
def ctP6 : RE :=
  seqAll [.wb, dC, .opt dC, chC '/', dC, .opt dC,
          .opt (seqAll [chC '/', dC, dC, .opt (seqAll [dC, .opt dC])]), .wb]

/-- `patternsToRemove` of nlp.ts `cleanTitle`, in source order. -/
def patternsToRemove : List RE := [ctP1, ctP2, ctP3, ctP4, ctP5, ctP6]

/-- The removal loop of `cleanTitle` (nlp.ts lines 145-147): each pattern is
globally replaced by the empty string, in order. -/
def removeTitleRegexes (l : List Char) : List Char :=
  patternsToRemove.foldl (fun acc re => reReplaceAll acc re []) l

/-- The whitespace collapse `cleaned.replace(/\s+/g, ' ')` of nlp.ts line 150:
every maximal run of whitespace becomes a single space. -/
def collapseWs (l : List Char) : List Char :=
  l.foldr
    (fun c acc =>
      if isWsB c then
        match acc with
        | d :: _ => if d == ' ' then acc else ' ' :: acc
        | [] => [' ']
      else c :: acc)
    []

/-- The capitalization step of nlp.ts lines 153-155: uppercase the first
character of a non-empty string. -/
def capitalizeJS (l : List Char) : List Char :=
  match l with
  | [] => []
  | c :: rest => upCh c :: rest

/-- The tail of `cleanTitle` after pattern removal: collapse whitespace, trim,
capitalize (nlp.ts lines 150-155). -/
def normalizeTitle (l : List Char) : List Char :=
  capitalizeJS (trimJS (collapseWs l))

/-- `cleanTitle` of src/services/nlp.ts. -/
def cleanTitle (text : String) : String :=
  String.mk (normalizeTitle (removeTitleRegexes text.data))

/-- The `ParsedTask` interface of src/services/nlp.ts.  `dueDate` and
`dueTime` are produced by the external chrono-node library; the only part of
them the core logic consumes is the day distance fed to `detectTimeframe`,
kept here as `dueDiffDays`. -/
structure ParsedTask where
  title : String
  category : Option Category
  dueDiffDays : Option Int
  timeframe : Timeframe
  recurrence : Option RecurrencePattern
  priority : Priority
deriving DecidableEq, Repr

/-- `parseNaturalLanguage` of src/services/nlp.ts.  The call to
`chrono.parse` is external; `chronoDiffDays` stands for its outcome: `none`
when no temporal expression was found, otherwise the ceiled day distance of
the extracted due date from now. -/
def parseNaturalLanguage (input : String) (chronoDiffDays : Option Int) : ParsedTask :=
  let recurrence := detectRecurrence input
  let category := detectCategory input
  let priority := detectPriority input
  let timeframe := detectTimeframe input recurrence.isSome chronoDiffDays
  let title := cleanTitle input
  { title := title, category := category, dueDiffDays := chronoDiffDays,
    timeframe := timeframe, recurrence := recurrence, priority := priority }

/-- `dayNames[d].slice(0, 3)` over a day-index list, as in `formatRecurrence`;
`none` models the TypeError the source would throw on an out-of-range index. -/
def mapDayLabels : List Nat → Option (List String)
  | [] => some []
  | d :: rest =>
    match dayNames.get? d with
    | some nm =>
      match mapDayLabels rest with
      | some tl => some (String.mk (nm.data.take 3) :: tl)
      | none => none
    | none => none

/-- Template-literal rendering of the optional `interval` field (`undefined`
prints as the string "undefined" in JS). -/
def showInterval (i : Option Nat) : String :=
  match i with
  | some n => toString n
  | none => "undefined"

/-- `formatRecurrence` of src/services/nlp.ts.  Returns `none` exactly when
the source would crash (a weekday index outside `dayNames`); every normal
path returns `some`. -/
def formatRecurrence (r : RecurrencePattern) : Option String :=
  if r.rtype == "daily" then
    some (if r.interval == some 1 then "Daily"
          else "Every " ++ showInterval r.interval ++ " days")
  else if r.rtype == "weekly" then
    match r.days with
    | some ds =>
      if ds.length > 0 then
        (mapDayLabels ds).map (fun labels => "Every " ++ String.intercalate ", " labels)
      else
        some (if r.interval == some 1 then "Weekly"
              else "Every " ++ showInterval r.interval ++ " weeks")
    | none =>
      some (if r.interval == some 1 then "Weekly"
            else "Every " ++ showInterval r.interval ++ " weeks")
  else if r.rtype == "monthly" then
    some (if r.interval == some 1 then "Monthly"
          else "Every " ++ showInterval r.interval ++ " months")
  else some ""

end Nlp

namespace DailyPrompt

open JsStr JsRx

/-- DailyPrompt.tsx line 21: the work-keyword regex. -/
def dpWorkRE : RE :=
  seqAll [.wb, altAll [litS "work", litS "office", litS "meeting", litS "email",
    litS "project", litS "deadline", litS "boss", litS "client", litS "report",
    litS "presentation", litS "call with", litS "zoom", litS "teams",
    litS "standup", litS "sprint", litS "jira", litS "slack"], .wb]

/-- DailyPrompt.tsx line 26: the health-keyword regex. -/
def dpHealthRE : RE :=
  seqAll [.wb, altAll [litS "gym", litS "exercise", litS "workout", litS "run",
    litS "walk", litS "jog", litS "doctor", litS "dentist", litS "health",
    litS "yoga", litS "meditat", litS "sleep", litS "vitamin", litS "medicine",
    litS "appointment", litS "checkup", litS "therapy", litS "physio"], .wb]

/-- DailyPrompt.tsx line 31: the finance-keyword regex. -/
def dpFinanceRE : RE :=
  seqAll [.wb, altAll [litS "pay", litS "bill", litS "bank", litS "money",
    litS "budget", litS "tax", litS "invoice", litS "rent", litS "mortgage",
    litS "insurance", litS "invest", litS "salary", litS "expense",
    litS "transfer", litS "savings"], .wb]

/-- DailyPrompt.tsx line 36: the social-keyword regex. -/
def dpSocialRE : RE :=
  seqAll [.wb, altAll [litS "call mom", litS "call dad", litS "call friend",
    litS "visit", litS "party", litS "dinner with", litS "lunch with",
    litS "meet up", litS "friend", litS "family", litS "birthday",
    litS "wedding", litS "event", litS "drinks with", litS "coffee with"], .wb]

/-- DailyPrompt.tsx line 42: the booking-action exclusion regex
`\b(book|reserve|schedule)\s+(a\s+)?(train|flight|...)\b`. -/
def dpBookingRE : RE :=
  seqAll [.wb, altAll [litS "book", litS "reserve", litS "schedule"], plusRE sC,
          .opt (seqAll [litS "a", plusRE sC]),
          altAll [litS "train", litS "flight", litS "ticket", litS "hotel",
                  litS "appointment", litS "table", litS "restaurant",
                  litS "cab", litS "uber", litS "taxi", litS "room"], .wb]

/-- DailyPrompt.tsx line 43: the learning-keyword regex. -/
def dpLearningRE : RE :=
  seqAll [.wb, altAll [litS "study", litS "learn",
    seqAll [litS "read", plusRE sC, .opt (chC 'a'), .star sC, litS "book"],
    litS "course", litS "class", litS "practice", litS "tutorial",
    litS "lesson", litS "homework", litS "research", litS "exam",
    litS "textbook", litS "library", litS "reading"], .wb]

/-- DailyPrompt.tsx line 48: the personal-keyword regex (note the `book\s`
alternative: "book" followed by one whitespace character). -/
def dpPersonalRE : RE :=
  seqAll [.wb, altAll [litS "clean", litS "laundry", litS "grocery",
    litS "shop", litS "cook", litS "errand", litS "home", litS "house",
    litS "car", litS "fix", litS "repair", litS "organize",
    seqAll [litS "book", sC], litS "reserve", litS "ticket", litS "travel",
    litS "pack", litS "trip", litS "airport", litS "train", litS "flight"], .wb]

/-- `detectCategory` of DailyPrompt.tsx: word-boundary regexes with explicit
precedence work > health > finance > social > learning (with the booking
exclusion) > personal, always resolving (default personal). -/
def detectCategory (seg : List Char) : Category :=
  let lower := lowerL seg
  if reTest dpWorkRE lower then .work
  else if reTest dpHealthRE lower then .health
  else if reTest dpFinanceRE lower then .finance
  else if reTest dpSocialRE lower then .social
  else if !(reTest dpBookingRE lower) && reTest dpLearningRE lower then .learning
  else if reTest dpPersonalRE lower then .personal
  else .personal

/-- DailyPrompt.tsx line 59: the high-priority trigger regex. -/
def dpHighRE : RE :=
  seqAll [.wb, altAll [litS "urgent", litS "asap", litS "important",
    litS "critical", litS "must", litS "deadline today",
    litS "high priority"], .wb]

/-- DailyPrompt.tsx line 62: the low-priority trigger regex. -/
def dpLowRE : RE :=
  seqAll [.wb, altAll [litS "maybe", litS "later", litS "when possible",
    litS "low priority", litS "sometime", litS "eventually"], .wb]

/-- `detectPriority` of DailyPrompt.tsx. -/
def detectPriority (seg : List Char) : Priority :=
  let lower := lowerL seg
  if reTest dpHighRE lower then .high
  else if reTest dpLowRE lower then .low
  else .medium

/-- DailyPrompt.tsx line 73: the filler-phrase alternation of
`cleanTaskText`'s first replace, in source order. -/
def fillerAltRE : RE :=
  altAll [litI "i need to", litI "i have to", litI "i want to",
          litI "i should", litI "i must", litI "i gotta", litI "gotta",
          litI "need to", litI "have to", litI "want to", litI "should",
          litI "must", litI "going to", litI "gonna", litI "will",
          litI "i'll", litI "i will"]

/-- `/^(i need to|...)\s+/i` of DailyPrompt.tsx line 73. -/
def dpLeadRE : RE := seqAll [.bol, fillerAltRE, plusRE sC]

/-- The punctuation class `[\s,.\-–—]` of DailyPrompt.tsx line 75. -/
def punctCls : RE :=
  .cls (fun c => isWsB c || c == ',' || c == '.' || c == '-' ||
                 c.toNat == 0x2013 || c.toNat == 0x2014)

/-- `/^[\s,.\-–—]+|[\s,.\-–—]+$/g` of DailyPrompt.tsx line 75. -/
def dpEdgeRE : RE :=
  .alt (seqAll [.bol, plusRE punctCls]) (seqAll [plusRE punctCls, .eol])

/-- The `.replace(/^./, c => c.toUpperCase())` step of DailyPrompt.tsx line
77 (`.` does not match a line terminator). -/
def capFirstJS (l : List Char) : List Char :=
  match l with
  | [] => []
  | c :: rest => if isLineTermB c then c :: rest else upCh c :: rest

/-- `cleanTaskText` of DailyPrompt.tsx: strip one leading filler phrase, strip
edge punctuation, capitalize, trim. -/
def cleanTaskText (seg : List Char) : List Char :=
  trimJS (capFirstJS (reReplaceAll (reReplaceFirst seg dpLeadRE []) dpEdgeRE []))

/-- DailyPrompt.tsx line 85: the delimiter regex
`/(?:,\s*(?:and\s+)?|(?:\s+and\s+)|\.\s+|\n+|;\s*|then\s+)/i` of `parseInput`. -/
def dpSplitRE : RE :=
  altAll [seqAll [chI ',', .star sC, .opt (seqAll [litI "and", plusRE sC])],
          seqAll [plusRE sC, litI "and", plusRE sC],
          seqAll [chC '.', plusRE sC],
          plusRE (chC '\n'),
          seqAll [chC ';', .star sC],
          seqAll [litI "then", plusRE sC]]

/-- The segment list of `parseInput` (DailyPrompt.tsx lines 84-87): split on
the delimiters, trim, and drop segments of length at most 2. -/
def segmentsOf (input : String) : List (List Char) :=
  ((reSplit input.data dpSplitRE).map trimJS).filter (fun s => s.length > 2)

/-- The `ParsedTask` interface of DailyPrompt.tsx (the multi-task candidate). -/
structure ParsedTask where
  title : String
  category : Category
  priority : Priority
  selected : Bool
deriving DecidableEq, Repr

/-- The main loop of `parseInput` (DailyPrompt.tsx lines 92-107): clean each
segment, drop cleaned results shorter than 3 characters, deduplicate on the
lowercased cleaned text (`seen` models the JS `Set<string>`), and classify
category and priority on the uncleaned segment. -/
def parseLoop : List (List Char) → List (List Char) → List ParsedTask
  | [], _ => []
  | seg :: rest, seen =>
    if (cleanTaskText seg).length < 3 then parseLoop rest seen
    else if seen.contains (lowerL (cleanTaskText seg)) then parseLoop rest seen
    else
      { title := String.mk (cleanTaskText seg), category := detectCategory seg,
        priority := detectPriority seg, selected := true } ::
        parseLoop rest (lowerL (cleanTaskText seg) :: seen)

/-- `parseInput` of DailyPrompt.tsx (the spec's `parseMultipleTasks`). -/
def parseInput (input : String) : List ParsedTask :=
  parseLoop (segmentsOf input) []

end DailyPrompt

section CharLemmas

open JsStr

lemma upCh_cases (c : Char) :
    upCh c = c ∨ ∃ p ∈ letterPairs, p.2 = c ∧ upCh c = p.1 := by
  unfold upCh
  cases h : letterPairs.find? (fun p => p.2 == c) with
  | none => simp
  | some p =>
    right
    refine ⟨p, List.mem_of_find?_eq_some h, ?_, ?_⟩
    · simpa using List.find?_some h
    · simp

lemma isWsB_upCh (c : Char) : isWsB (upCh c) = isWsB c := by
  rcases upCh_cases c with h | ⟨p, hmem, hpc, hup⟩
  · rw [h]
  · rw [hup, ← hpc]
    have hall : letterPairs.all (fun p => isWsB p.1 == isWsB p.2) = true := by decide
    simpa using List.all_eq_true.mp hall p hmem

lemma upCh_eq_space (c : Char) (h : upCh c = ' ') : c = ' ' := by
  rcases upCh_cases c with h0 | ⟨p, hmem, hpc, hup⟩
  · rw [← h0]; exact h
  · exfalso
    have hall : letterPairs.all (fun p => p.1 != ' ') = true := by decide
    have hne := List.all_eq_true.mp hall p hmem
    rw [hup] at h
    simp [h] at hne

lemma upCh_upCh (c : Char) : upCh (upCh c) = upCh c := by
  rcases upCh_cases c with h0 | ⟨p, hmem, hpc, hup⟩
  · rw [h0, h0]
  · rw [hup]
    have hall : letterPairs.all (fun q => upCh q.1 == q.1) = true := by decide
    simpa using List.all_eq_true.mp hall p hmem

lemma space_isWsB : isWsB ' ' = true := by decide

end CharLemmas

section NormalizeLemmas

open JsStr Nlp

/-- All whitespace characters of `l` are plain spaces. -/
def wsOkP (l : List Char) : Prop := ∀ c ∈ l, isWsB c = true → c = ' '

/-- No two adjacent characters of `l` are both spaces. -/
def noAdjP (l : List Char) : Prop := l.Chain' (fun a b => ¬(a = ' ' ∧ b = ' '))

/-- Collapsed-whitespace invariant: whitespace is single plain spaces. -/
def goodP (l : List Char) : Prop := wsOkP l ∧ noAdjP l

/-- The head of `l`, when present, is not whitespace. -/
def headOkP (l : List Char) : Prop := ∀ c, l.head? = some c → isWsB c = false

/-- The last element of `l`, when present, is not whitespace. -/
def lastOkP (l : List Char) : Prop := ∀ c, l.getLast? = some c → isWsB c = false

lemma collapseWs_cons (c : Char) (l : List Char) :
    collapseWs (c :: l) =
      (if isWsB c then
        match collapseWs l with
        | d :: _ => if d == ' ' then collapseWs l else ' ' :: collapseWs l
        | [] => [' ']
      else c :: collapseWs l) := rfl

lemma goodP_nil : goodP [] := ⟨by intro c h; simp at h, List.chain'_nil⟩

lemma goodP_cons_of (c : Char) (l : List Char) (hg : goodP l)
    (hws : isWsB c = true → c = ' ')
    (hadj : ∀ d, l.head? = some d → ¬(c = ' ' ∧ d = ' ')) : goodP (c :: l) := by
  obtain ⟨h1, h2⟩ := hg
  refine ⟨?_, ?_⟩
  · intro x hx hwx
    rcases List.mem_cons.mp hx with rfl | hx
    · exact hws hwx
    · exact h1 x hx hwx
  · rw [noAdjP, List.chain'_cons']
    exact ⟨fun d hd => hadj d (by simpa using hd), h2⟩

lemma goodP_tail {c : Char} {l : List Char} (h : goodP (c :: l)) : goodP l := by
  obtain ⟨h1, h2⟩ := h
  refine ⟨fun x hx => h1 x (List.mem_cons_of_mem c hx), ?_⟩
  rw [noAdjP, List.chain'_cons'] at h2
  exact h2.2

lemma goodP_head_pair {c d : Char} {l : List Char} (h : goodP (c :: l))
    (hd : l.head? = some d) : ¬(c = ' ' ∧ d = ' ') := by
  obtain ⟨_, h2⟩ := h
  rw [noAdjP, List.chain'_cons'] at h2
  exact h2.1 d (by simpa using hd)

lemma notSpace_of_notWs {c : Char} (h : isWsB c = false) : c ≠ ' ' := by
  intro h0
  rw [h0] at h
  exact absurd h (by decide)

lemma goodP_collapseWs (l : List Char) : goodP (collapseWs l) := by
  induction l with
  | nil => exact goodP_nil
  | cons c l IH =>
    rw [collapseWs_cons]
    by_cases hc : isWsB c = true
    · rw [if_pos hc]
      cases h2 : collapseWs l with
      | nil =>
        exact goodP_cons_of ' ' [] goodP_nil (fun _ => rfl) (by intro d hd; simp at hd)
      | cons d t =>
        rw [h2] at IH
        show goodP (if (d == ' ') = true then d :: t else ' ' :: (d :: t))
        by_cases hd : (d == ' ') = true
        · rw [if_pos hd]; exact IH
        · rw [if_neg hd]
          refine goodP_cons_of ' ' (d :: t) IH (fun _ => rfl) ?_
          intro x hx
          simp only [List.head?_cons, Option.some.injEq] at hx
          subst hx
          intro ⟨_, hx2⟩
          exact absurd (by simp [hx2] : (d == ' ') = true) hd
    · rw [if_neg hc]
      refine goodP_cons_of c (collapseWs l) IH (fun h => absurd h hc) ?_
      intro d _ ⟨hc2, _⟩
      exact notSpace_of_notWs (by simpa using hc) hc2

lemma collapseWs_eq_self (l : List Char) (h : goodP l) : collapseWs l = l := by
  induction l with
  | nil => rfl
  | cons c l IH =>
    have hIH := IH (goodP_tail h)
    rw [collapseWs_cons, hIH]
    by_cases hc : isWsB c = true
    · rw [if_pos hc]
      have hc' : c = ' ' := h.1 c (List.mem_cons_self c l) hc
      cases l with
      | nil =>
        show [' '] = [c]
        rw [hc']
      | cons d t =>
        have hpair := goodP_head_pair h (d := d) (by simp)
        have hd : ¬((d == ' ') = true) := by
          intro hd'
          exact hpair ⟨hc', by simpa using hd'⟩
        show (if (d == ' ') = true then d :: t else ' ' :: (d :: t)) = c :: d :: t
        rw [if_neg hd, hc']
    · rw [if_neg hc]

lemma wsOkP_of_suffix {s l : List Char} (hs : s <:+ l) (h : wsOkP l) : wsOkP s :=
  fun c hc => h c (hs.subset hc)

lemma goodP_of_suffix {s l : List Char} (hs : s <:+ l) (h : goodP l) : goodP s :=
  ⟨wsOkP_of_suffix hs h.1, h.2.suffix hs⟩

lemma goodP_reverse (l : List Char) (h : goodP l) : goodP l.reverse := by
  refine ⟨fun c hc => h.1 c (List.mem_reverse.mp hc), ?_⟩
  rw [noAdjP, List.chain'_reverse]
  exact h.2.imp (fun a b hab => fun ⟨x, y⟩ => hab ⟨y, x⟩)

lemma headOkP_dropWhile (l : List Char) : headOkP (l.dropWhile isWsB) := by
  induction l with
  | nil => intro c h; simp [List.dropWhile] at h
  | cons a l IH =>
    intro c h
    rw [List.dropWhile_cons] at h
    by_cases ha : isWsB a = true
    · rw [if_pos ha] at h; exact IH c h
    · rw [if_neg ha] at h
      simp only [List.head?_cons, Option.some.injEq] at h
      subst h
      simpa using ha

lemma lastOkP_of_suffix {s l : List Char} (hs : s <:+ l) (h : lastOkP l) : lastOkP s := by
  intro c hc
  obtain ⟨t, rfl⟩ := hs
  have hne : s ≠ [] := by
    intro h0
    subst h0
    simp at hc
  exact h c (by rw [List.getLast?_append_of_ne_nil t hne]; exact hc)

lemma dropWhile_eq_self_of_headOk (t : List Char) (h : headOkP t) :
    t.dropWhile isWsB = t := by
  cases t with
  | nil => rfl
  | cons a l =>
    rw [List.dropWhile_cons, if_neg]
    intro ha
    have := h a (by simp)
    rw [this] at ha
    exact absurd ha (by simp)

lemma trimJS_eq_self (t : List Char) (h1 : headOkP t) (h2 : lastOkP t) :
    trimJS t = t := by
  unfold trimJS
  rw [dropWhile_eq_self_of_headOk t h1]
  have hrev : headOkP t.reverse := by
    intro c hc
    rw [List.head?_reverse] at hc
    exact h2 c hc
  rw [dropWhile_eq_self_of_headOk t.reverse hrev, List.reverse_reverse]

lemma headOkP_trimJS (l : List Char) : headOkP (trimJS l) := by
  unfold trimJS
  intro c hc
  rw [List.head?_reverse] at hc
  have hsuf := List.dropWhile_suffix (l := (l.dropWhile isWsB).reverse) isWsB
  have hlast : lastOkP (l.dropWhile isWsB).reverse := by
    intro x hx
    rw [List.getLast?_reverse] at hx
    exact headOkP_dropWhile l x hx
  exact lastOkP_of_suffix hsuf hlast c hc

lemma lastOkP_trimJS (l : List Char) : lastOkP (trimJS l) := by
  unfold trimJS
  intro c hc
  rw [List.getLast?_reverse] at hc
  exact headOkP_dropWhile (l.dropWhile isWsB).reverse c hc

lemma goodP_trimJS (l : List Char) (h : goodP l) : goodP (trimJS l) := by
  unfold trimJS
  have h1 := goodP_of_suffix (List.dropWhile_suffix isWsB) h
  have h2 := goodP_reverse _ h1
  have h3 := goodP_of_suffix (List.dropWhile_suffix isWsB) h2
  exact goodP_reverse _ h3

lemma goodP_capitalizeJS (m : List Char) (h : goodP m) : goodP (capitalizeJS m) := by
  cases m with
  | nil => exact goodP_nil
  | cons c rest =>
    rw [capitalizeJS]
    refine goodP_cons_of (upCh c) rest (goodP_tail h) ?_ ?_
    · intro hws
      rw [isWsB_upCh] at hws
      have hc := h.1 c (by simp) hws
      rw [hc]
      decide
    · intro d hd ⟨hup, hd2⟩
      exact goodP_head_pair h hd ⟨upCh_eq_space c hup, hd2⟩

lemma headOkP_capitalizeJS (m : List Char) (h : headOkP m) :
    headOkP (capitalizeJS m) := by
  cases m with
  | nil => exact h
  | cons c rest =>
    rw [capitalizeJS]
    intro x hx
    simp only [List.head?_cons, Option.some.injEq] at hx
    subst hx
    rw [isWsB_upCh]
    exact h c (by simp)

lemma lastOkP_capitalizeJS (m : List Char) (h : lastOkP m) :
    lastOkP (capitalizeJS m) := by
  cases m with
  | nil => exact h
  | cons c rest =>
    cases rest with
    | nil =>
      rw [capitalizeJS]
      intro x hx
      simp only [List.getLast?_singleton, Option.some.injEq] at hx
      subst hx
      rw [isWsB_upCh]
      exact h c (by simp [List.getLast?_singleton])
    | cons d t =>
      rw [capitalizeJS]
      intro x hx
      rw [List.getLast?_cons_cons] at hx
      exact h x (by rw [List.getLast?_cons_cons]; exact hx)

lemma capitalizeJS_capitalizeJS (m : List Char) :
    capitalizeJS (capitalizeJS m) = capitalizeJS m := by
  cases m with
  | nil => rfl
  | cons c rest => simp [capitalizeJS, upCh_upCh]

/-- Idempotence of the normalization stage of `cleanTitle`: collapse
whitespace, trim, capitalize. -/
lemma normalizeTitle_idem (l : List Char) :
    normalizeTitle (normalizeTitle l) = normalizeTitle l := by
  unfold normalizeTitle
  set m := trimJS (collapseWs l) with hm
  have hgood : goodP m := goodP_trimJS _ (goodP_collapseWs l)
  have hhead : headOkP m := headOkP_trimJS _
  have hlast : lastOkP m := lastOkP_trimJS _
  have hgood2 : goodP (capitalizeJS m) := goodP_capitalizeJS m hgood
  have hhead2 : headOkP (capitalizeJS m) := headOkP_capitalizeJS m hhead
  have hlast2 : lastOkP (capitalizeJS m) := lastOkP_capitalizeJS m hlast
  rw [collapseWs_eq_self _ hgood2, trimJS_eq_self _ hhead2 hlast2,
    capitalizeJS_capitalizeJS]

end NormalizeLemmas

section LoopLemmas

open JsStr

lemma strMk_data (l : List Char) : (String.mk l).data = l := rfl

lemma catLoop_eq_find (lower : List Char) (tbl : List (Category × List String)) :
    Nlp.catLoop lower tbl =
      (tbl.find? (fun p => p.2.any (fun kw => containsSub lower kw.data))).map
        Prod.fst := by
  induction tbl with
  | nil => rfl
  | cons e rest IH =>
    obtain ⟨cat, kws⟩ := e
    rw [Nlp.catLoop]
    by_cases h : kws.any (fun kw => containsSub lower kw.data) = true
    · rw [if_pos h, List.find?_cons_of_pos _ (by simpa using h)]
      rfl
    · rw [if_neg h, List.find?_cons_of_neg _ (by simpa using h), IH]

lemma parseLoop_key_spec (segs : List (List Char)) :
    ∀ seen : List (List Char),
      ((DailyPrompt.parseLoop segs seen).map (fun c => lowerL c.title.data)).Nodup ∧
        ∀ c ∈ DailyPrompt.parseLoop segs seen, lowerL c.title.data ∉ seen := by
  induction segs with
  | nil =>
    intro seen
    constructor
    · simp [DailyPrompt.parseLoop]
    · intro c hc
      simp [DailyPrompt.parseLoop] at hc
  | cons seg rest IH =>
    intro seen
    rw [DailyPrompt.parseLoop]
    by_cases h1 : (DailyPrompt.cleanTaskText seg).length < 3
    · rw [if_pos h1]
      exact IH seen
    · rw [if_neg h1]
      by_cases h2 :
          seen.contains (lowerL (DailyPrompt.cleanTaskText seg)) = true
      · rw [if_pos h2]
        exact IH seen
      · rw [if_neg h2]
        obtain ⟨IH1, IH2⟩ := IH (lowerL (DailyPrompt.cleanTaskText seg) :: seen)
        constructor
        · rw [List.map_cons, List.nodup_cons]
          refine ⟨?_, IH1⟩
          intro hmem
          obtain ⟨c, hc, hkey⟩ := List.mem_map.mp hmem
          have hnot := IH2 c hc
          rw [strMk_data] at hkey
          exact hnot (by rw [hkey]; exact List.mem_cons_self _ _)
        · intro c hc
          rcases List.mem_cons.mp hc with rfl | hc
          · intro hmem
            exact h2 (List.elem_iff.mpr hmem)
          · intro hmem
            exact IH2 c hc (List.mem_cons_of_mem _ hmem)

lemma parseLoop_title_spec (segs : List (List Char)) :
    ∀ seen, ∀ c ∈ DailyPrompt.parseLoop segs seen,
      ∃ seg ∈ segs, c.title.data = DailyPrompt.cleanTaskText seg ∧
        3 ≤ (DailyPrompt.cleanTaskText seg).length := by
  induction segs with
  | nil =>
    intro seen c hc
    simp [DailyPrompt.parseLoop] at hc
  | cons seg rest IH =>
    intro seen c hc
    rw [DailyPrompt.parseLoop] at hc
    by_cases h1 : (DailyPrompt.cleanTaskText seg).length < 3
    · rw [if_pos h1] at hc
      obtain ⟨s, hs, hh⟩ := IH seen c hc
      exact ⟨s, List.mem_cons_of_mem _ hs, hh⟩
    · rw [if_neg h1] at hc
      by_cases h2 :
          seen.contains (lowerL (DailyPrompt.cleanTaskText seg)) = true
      · rw [if_pos h2] at hc
        obtain ⟨s, hs, hh⟩ := IH seen c hc
        exact ⟨s, List.mem_cons_of_mem _ hs, hh⟩
      · rw [if_neg h2] at hc
        rcases List.mem_cons.mp hc with rfl | hc
        · exact ⟨seg, List.mem_cons_self _ _, rfl, by omega⟩
        · obtain ⟨s, hs, hh⟩ := IH _ c hc
          exact ⟨s, List.mem_cons_of_mem _ hs, hh⟩

lemma mapDayLabels_isSome (ds : List Nat) (h : ∀ d ∈ ds, d < 7) :
    (Nlp.mapDayLabels ds).isSome = true := by
  induction ds with
  | nil => rfl
  | cons d rest IH =>
    have hd : d < Nlp.dayNames.length := by
      have := h d (by simp)
      simpa [Nlp.dayNames] using this
    have hrest := IH (fun x hx => h x (by simp [hx]))
    rw [Nlp.mapDayLabels, List.get?_eq_get hd]
    cases hmr : Nlp.mapDayLabels rest with
    | none => rw [hmr] at hrest; simp at hrest
    | some tl => simp

lemma weekdayIdxs_sorted (daysText : List Char) :
    (Nlp.weekdayIdxs daysText).Chain' (· < ·) :=
  ((List.pairwise_lt_range 7).filter _).chain'

lemma weekdayIdxs_bound (daysText : List Char) :
    ∀ d ∈ Nlp.weekdayIdxs daysText, d < 7 := by
  intro d hd
  have := List.mem_of_mem_filter hd
  exact List.mem_range.mp this

lemma weekdayEveryBranch_spec (lower : List Char) (p : RecurrencePattern)
    (h : Nlp.weekdayEveryBranch lower = some p) :
    ∃ ds, p = { rtype := "weekly", days := some ds, interval := some 1 } ∧
      ds ≠ [] ∧ ds.Chain' (· < ·) ∧ ∀ d ∈ ds, d < 7 := by
  rw [Nlp.weekdayEveryBranch] at h
  split at h
  · split at h
    · injection h with h
      rename_i g1 _ hlen
      refine ⟨Nlp.weekdayIdxs (Nlp.weekdayG1Text lower g1), h.symm, ?_, ?_, ?_⟩
      · intro h0
        rw [h0] at hlen
        simp at hlen
      · exact weekdayIdxs_sorted _
      · exact weekdayIdxs_bound _
    · exact absurd h (by simp)
  · exact absurd h (by simp)

lemma tableScan_spec (lower : List Char) (tbl : List (JsRx.RE × String))
    (p : RecurrencePattern)
    (htbl : ∀ e ∈ tbl, e.2 = "daily" ∨ e.2 = "weekly" ∨ e.2 = "monthly")
    (h : Nlp.tableScan lower tbl = some p) :
    p.days = none ∧ p.dayOfMonth = none ∧ (∃ n, p.interval = some n) ∧
      (p.rtype = "daily" ∨ p.rtype = "weekly" ∨ p.rtype = "monthly") := by
  induction tbl with
  | nil => rw [Nlp.tableScan] at h; exact absurd h (by simp)
  | cons e rest IH =>
    obtain ⟨re, ty⟩ := e
    rw [Nlp.tableScan] at h
    split at h
    · injection h with h
      rw [← h]
      refine ⟨rfl, rfl, ⟨_, rfl⟩, ?_⟩
      simpa using htbl (re, ty) (List.mem_cons_self _ _)
    · exact IH (fun x hx => htbl x (List.mem_cons_of_mem _ hx)) h

lemma formatRecurrence_isSome_of_valid (p : RecurrencePattern)
    (hdays : ∀ ds, p.days = some ds → ∀ d ∈ ds, d < 7) :
    (Nlp.formatRecurrence p).isSome = true := by
  rw [Nlp.formatRecurrence]
  split
  · simp
  · split
    · split
      · rename_i ds hds
        split
        · have hsome := mapDayLabels_isSome ds (hdays ds hds)
          cases hm : Nlp.mapDayLabels ds with
          | none => rw [hm] at hsome; simp at hsome
          | some labels => simp [hm]
        · simp
      · simp
    · split
      · simp
      · simp

end LoopLemmas

section HelperForClaims

open JsStr

lemma formatRecurrence_weekly_days (ds : List Nat) (hlen : 0 < ds.length)
    (i : Option Nat) :
    Nlp.formatRecurrence { rtype := "weekly", days := some ds, interval := i } =
      (Nlp.mapDayLabels ds).map
        (fun labels => "Every " ++ String.intercalate ", " labels) := by
  have h : Nlp.formatRecurrence { rtype := "weekly", days := some ds, interval := i } =
      if ds.length > 0 then
        (Nlp.mapDayLabels ds).map
          (fun labels => "Every " ++ String.intercalate ", " labels)
      else
        some (if i == some 1 then "Weekly"
              else "Every " ++ Nlp.showInterval i ++ " weeks") := rfl
  rw [h, if_pos hlen]

end HelperForClaims

/-- C1 (amended): `parseNaturalLanguage` is total, and for every input string
and every outcome of the external chrono date parse the returned task has a
timeframe in {daily, weekly, monthly, once}, a priority in
{low, medium, high}, and a title equal to `cleanTitle input`.  Contrary to
the original claim, that title can be the empty string: the function applies
no raw-input fallback (the `parsedTask.title || input.trim()` fallback lives
in the calling component, not in the parser). -/
theorem parseNaturalLanguage_total (input : String) (d : Option Int) :
    ((Nlp.parseNaturalLanguage input d).timeframe = .daily ∨
      (Nlp.parseNaturalLanguage input d).timeframe = .weekly ∨
      (Nlp.parseNaturalLanguage input d).timeframe = .monthly ∨
      (Nlp.parseNaturalLanguage input d).timeframe = .once) ∧
    ((Nlp.parseNaturalLanguage input d).priority = .low ∨
      (Nlp.parseNaturalLanguage input d).priority = .medium ∨
      (Nlp.parseNaturalLanguage input d).priority = .high) ∧
    (Nlp.parseNaturalLanguage input d).title = Nlp.cleanTitle input := by
  refine ⟨?_, ?_, rfl⟩
  · cases (Nlp.parseNaturalLanguage input d).timeframe <;> simp
  · cases (Nlp.parseNaturalLanguage input d).priority <;> simp

/-- C1 counterexample: on the input "daily" the cleaner removes everything,
and `parseNaturalLanguage` returns an empty title rather than falling back
to the raw input, refuting the non-empty-title part of the claim. -/
theorem parseNaturalLanguage_empty_title_cex :
    (Nlp.parseNaturalLanguage "daily" none).title = "" ∧
      Nlp.cleanTitle "daily" = "" ∧ ("" : String) ≠ "daily" :=
  ⟨by decide, by decide, by decide⟩

/-- C2: `detectRecurrence` returns weekly with the matched weekday indices
and interval 1 whenever the "every <weekday list>" branch recovers at least
one day, this branch taking precedence over the interval-pattern table
(witnessed concretely by "daily every Monday"); otherwise the ordered table
decides; and the two cited examples evaluate as specified. -/
theorem detectRecurrence_spec :
    Nlp.detectRecurrence "every Monday and Wednesday" =
      some { rtype := "weekly", days := some [1, 3], interval := some 1 } ∧
    Nlp.detectRecurrence "every 3 weeks" =
      some { rtype := "weekly", interval := some 3 } ∧
    Nlp.detectRecurrence "daily every Monday" =
      some { rtype := "weekly", days := some [1], interval := some 1 } ∧
    (∀ (text : String) (p : RecurrencePattern),
      Nlp.weekdayEveryBranch (JsStr.lowerL text.data) = some p →
        Nlp.detectRecurrence text = some p) ∧
    (∀ text : String,
      Nlp.weekdayEveryBranch (JsStr.lowerL text.data) = none →
        Nlp.detectRecurrence text =
          Nlp.tableScan (JsStr.lowerL text.data) Nlp.recurrencePatterns) := by
  refine ⟨by decide, by decide, by decide, ?_, ?_⟩
  · intro text p h
    rw [Nlp.detectRecurrence, h]
  · intro text h
    rw [Nlp.detectRecurrence, h]

/-- Witness for C2: the weekday branch applied at the concrete input
"every Friday". -/
theorem detectRecurrence_spec_witness :
    Nlp.detectRecurrence "every Friday" =
      some { rtype := "weekly", days := some [5], interval := some 1 } :=
  detectRecurrence_spec.2.2.2.1 "every Friday" _ (by decide)

/-- C3 (amended): with recurrence present the first matching text branch
(daily, then weekly, then monthly) decides `detectTimeframe`; but when no
text branch matches — whether or not recurrence is present — control falls
through to the due-date distance classification (at most 1 day to daily, at
most 7 to weekly, at most 30 to monthly), and only without a due date is the
result `once`.  The original claim that the due date is never consulted when
recurrence is present is false. -/
theorem detectTimeframe_spec (text : String) (d : Option Int) :
    (∀ tf, Nlp.tfTextBranch (JsStr.lowerL text.data) = some tf →
      Nlp.detectTimeframe text true d = tf) ∧
    Nlp.detectTimeframe text false d = Nlp.distClassify d ∧
    (Nlp.tfTextBranch (JsStr.lowerL text.data) = none →
      Nlp.detectTimeframe text true d = Nlp.distClassify d) ∧
    Nlp.distClassify none = .once ∧
    (∀ n : Int, Nlp.distClassify (some n) =
      if n ≤ 1 then .daily else if n ≤ 7 then .weekly
      else if n ≤ 30 then .monthly else .once) ∧
    (Nlp.tfDailyCond (JsStr.lowerL text.data) = true →
      Nlp.tfTextBranch (JsStr.lowerL text.data) = some .daily) ∧
    (Nlp.tfDailyCond (JsStr.lowerL text.data) = false →
      Nlp.tfWeeklyCond (JsStr.lowerL text.data) = true →
      Nlp.tfTextBranch (JsStr.lowerL text.data) = some .weekly) ∧
    (Nlp.tfDailyCond (JsStr.lowerL text.data) = false →
      Nlp.tfWeeklyCond (JsStr.lowerL text.data) = false →
      Nlp.tfMonthlyCond (JsStr.lowerL text.data) = true →
      Nlp.tfTextBranch (JsStr.lowerL text.data) = some .monthly) := by
  refine ⟨?_, rfl, ?_, rfl, fun n => rfl, ?_, ?_, ?_⟩
  · intro tf h
    rw [Nlp.detectTimeframe, if_pos rfl, h]
  · intro h
    rw [Nlp.detectTimeframe, if_pos rfl, h]
  · intro h
    rw [Nlp.tfTextBranch, if_pos h]
  · intro h1 h2
    rw [Nlp.tfTextBranch, if_neg (by simp [h1]), if_pos h2]
  · intro h1 h2 h3
    rw [Nlp.tfTextBranch, if_neg (by simp [h1]), if_neg (by simp [h2]), if_pos h3]

/-- Witness for C3: a text branch deciding the timeframe at a concrete
input. -/
theorem detectTimeframe_spec_witness :
    Nlp.detectTimeframe "weekly standup every Monday" true none = .weekly :=
  (detectTimeframe_spec "weekly standup every Monday" none).1 .weekly (by decide)

/-- C3 counterexample: "every 3 days" has a detected recurrence and matches
none of the three text branches, yet with a due date 0 days away the result
is `daily`, not `once`: the due date is consulted. -/
theorem detectTimeframe_fallthrough_cex :
    Nlp.detectRecurrence "every 3 days" =
      some { rtype := "daily", interval := some 3 } ∧
    Nlp.tfTextBranch (JsStr.lowerL "every 3 days".data) = none ∧
    Nlp.detectTimeframe "every 3 days" true (some 0) = .daily ∧
    Timeframe.daily ≠ Timeframe.once :=
  ⟨by decide, by decide, by decide, by decide⟩

/-- C4 (amended): `parseInput` deduplicates by case-insensitive equality of
the full cleaned segment text, keeping the first occurrence (the lowercased
titles of the output are always pairwise distinct), so "clean, Clean"
collapses to one candidate; but "clean" and "clean the house" are different
cleaned texts, so "clean, clean the house" yields two candidates, not one. -/
theorem parseInput_dedup :
    (∀ input : String,
      ((DailyPrompt.parseInput input).map
        (fun c => JsStr.lowerL c.title.data)).Nodup) ∧
    (DailyPrompt.parseInput "clean, Clean").map DailyPrompt.ParsedTask.title =
      ["Clean"] ∧
    (DailyPrompt.parseInput "clean, clean the house").map
        DailyPrompt.ParsedTask.title =
      ["Clean", "Clean the house"] :=
  ⟨fun _ => (parseLoop_key_spec _ []).1, by decide, by decide⟩

/-- C4 counterexample: "clean, clean the house" produces two candidates, not
exactly one as claimed. -/
theorem parseInput_dedup_cex :
    (DailyPrompt.parseInput "clean, clean the house").length = 2 := by decide

/-- C5 (amended): every candidate of `parseInput` arises from one of the
delimiter-split, trimmed segments of length above 2, its title is the
cleaned form of that segment, and cleaned forms shorter than 3 characters
never reach the output.  The delimiters themselves carry no word-boundary
protection, so the split can fire inside a word (see the counterexample). -/
theorem parseInput_segment_filter (input : String) :
    ∀ c ∈ DailyPrompt.parseInput input,
      3 ≤ c.title.length ∧
      (∃ seg ∈ DailyPrompt.segmentsOf input,
        c.title.data = DailyPrompt.cleanTaskText seg) ∧
      ∀ seg ∈ DailyPrompt.segmentsOf input, 2 < seg.length := by
  intro c hc
  obtain ⟨seg, hseg, htitle, hlen⟩ := parseLoop_title_spec _ [] c hc
  refine ⟨?_, ⟨seg, hseg, htitle⟩, ?_⟩
  · rw [show c.title.length = c.title.data.length from rfl, htitle]
    exact hlen
  · intro s hs
    simpa using (List.mem_filter.mp hs).2

/-- Witness for C5 at a concrete input and candidate. -/
theorem parseInput_segment_filter_witness :
    ∃ seg ∈ DailyPrompt.segmentsOf "Go shopping",
      ({ title := "Go shopping", category := .personal, priority := .medium,
         selected := true } : DailyPrompt.ParsedTask).title.data =
        DailyPrompt.cleanTaskText seg :=
  (parseInput_segment_filter "Go shopping" _ (by decide)).2.1

/-- C5 counterexample: the delimiter "then followed by whitespace" matches
inside the word "strengthen", so "strengthen the wall" is split mid-word
into two candidates instead of being kept whole. -/
theorem parseInput_midword_split_cex :
    (DailyPrompt.parseInput "strengthen the wall").map
        DailyPrompt.ParsedTask.title = ["Streng", "The wall"] ∧
    (DailyPrompt.parseInput "strengthen the wall").map
        DailyPrompt.ParsedTask.title ≠ ["Strengthen the wall"] :=
  ⟨by decide, by decide⟩

/-- C6 (amended): `cleanTitle` is the normalization stage (whitespace
collapse, trim, capitalize) applied after the pattern-removal pass, and that
normalization stage is idempotent; `cleanTitle` as a whole is not, because
one removal can juxtapose words into a phrase a second pass would remove
(see the counterexample). -/
theorem cleanTitle_normalization_idem :
    (∀ s : String,
      Nlp.cleanTitle s =
        String.mk (Nlp.normalizeTitle (Nlp.removeTitleRegexes s.data))) ∧
    (∀ l : List Char,
      Nlp.normalizeTitle (Nlp.normalizeTitle l) = Nlp.normalizeTitle l) :=
  ⟨fun _ => rfl, normalizeTitle_idem⟩

/-- C6 counterexample: removing "tomorrow" from "at tomorrow 5pm" leaves
"At 5pm", which a second application of `cleanTitle` removes entirely, so
`cleanTitle` is not idempotent. -/
theorem cleanTitle_not_idem_cex :
    Nlp.cleanTitle "at tomorrow 5pm" = "At 5pm" ∧
    Nlp.cleanTitle (Nlp.cleanTitle "at tomorrow 5pm") = "" ∧
    Nlp.cleanTitle (Nlp.cleanTitle "at tomorrow 5pm") ≠
      Nlp.cleanTitle "at tomorrow 5pm" :=
  ⟨by decide, by decide, by decide⟩

/-- C7: the single-task `detectCategory` is first-match-wins over the
category table in declaration order {work, health, personal, finance,
learning, social}, matching keywords as case-insensitive substrings, with
`none` when nothing matches; in particular the example about scheduling a
meeting resolves to work, and a keyword-free string resolves to nothing. -/
theorem detectCategory_spec :
    (∀ text : String,
      Nlp.detectCategory text =
        (Nlp.categoryKeywords.find? (fun p =>
          p.2.any (fun kw =>
            JsStr.containsSub (JsStr.lowerL text.data) kw.data))).map
          Prod.fst) ∧
    Nlp.detectCategory "schedule a meeting with the client" = some .work ∧
    Nlp.detectCategory "zzzz" = none :=
  ⟨fun _ => catLoop_eq_find _ _, by decide, by decide⟩

/-- C8: the three-task example input yields exactly three candidates in
segment order, each selected by default, with the titles and categories the
claim lists. -/
theorem parseInput_three_example :
    DailyPrompt.parseInput "Go to the gym, call mom, pay the electric bill" =
      [{ title := "Go to the gym", category := .health, priority := .medium,
         selected := true },
       { title := "Call mom", category := .social, priority := .medium,
         selected := true },
       { title := "Pay the electric bill", category := .finance,
         priority := .medium, selected := true }] := by decide

/-- C9 (amended): `formatRecurrence` renders daily interval 1 as "Daily" and
daily interval 3 as "Every 3 days"; a weekly pattern with a non-empty `days`
list renders the weekday labels, and the rendering is independent of the
interval (days take precedence); an unrecognized type yields the empty
string.  The weekday labels come from the lowercase `dayNames` table, so the
example renders as "Every mon, wed", not "Every Mon, Wed" as the original
claim's example spells it. -/
theorem formatRecurrence_spec :
    Nlp.formatRecurrence { rtype := "daily", interval := some 1 } = some "Daily" ∧
    Nlp.formatRecurrence { rtype := "daily", interval := some 3 } =
      some "Every 3 days" ∧
    Nlp.formatRecurrence
        { rtype := "weekly", days := some [1, 3], interval := some 1 } =
      some "Every mon, wed" ∧
    (∀ (ds : List Nat) (i j : Option Nat), ds ≠ [] →
      Nlp.formatRecurrence { rtype := "weekly", days := some ds, interval := i } =
        Nlp.formatRecurrence { rtype := "weekly", days := some ds, interval := j }) ∧
    (∀ r : RecurrencePattern, r.rtype ≠ "daily" → r.rtype ≠ "weekly" →
      r.rtype ≠ "monthly" → Nlp.formatRecurrence r = some "") := by
  refine ⟨by decide, by decide, by decide, ?_, ?_⟩
  · intro ds i j hne
    rw [formatRecurrence_weekly_days ds (List.length_pos.mpr hne) i,
      formatRecurrence_weekly_days ds (List.length_pos.mpr hne) j]
  · intro r h1 h2 h3
    rw [Nlp.formatRecurrence, if_neg (by simp [h1]), if_neg (by simp [h2]),
      if_neg (by simp [h3])]

/-- Witness for C9: days-over-interval precedence and the unrecognized-type
branch at concrete patterns. -/
theorem formatRecurrence_spec_witness :
    Nlp.formatRecurrence
        { rtype := "weekly", days := some [2], interval := some 1 } =
      Nlp.formatRecurrence
        { rtype := "weekly", days := some [2], interval := some 5 } ∧
    Nlp.formatRecurrence { rtype := "yearly", interval := some 2 } = some "" :=
  ⟨formatRecurrence_spec.2.2.2.1 [2] (some 1) (some 5) (by decide),
   formatRecurrence_spec.2.2.2.2 { rtype := "yearly", interval := some 2 }
     (by decide) (by decide) (by decide)⟩

/-- C9 counterexample: for days [1, 3] the source renders the lowercase
"Every mon, wed", not the "Every Mon, Wed" the claim's example shows. -/
theorem formatRecurrence_case_cex :
    Nlp.formatRecurrence
        { rtype := "weekly", days := some [1, 3], interval := some 1 } ≠
      some "Every Mon, Wed" := by decide

/-- C10 (amended): every pattern produced by `detectRecurrence` carries an
interval (a natural number, which can be 0 — see the counterexample — so
"positive" in the original claim must weaken to "non-negative"), never sets
`dayOfMonth`, and carries a `days` list only for type weekly, in which case
the list is non-empty, strictly increasing, drawn from {0,...,6}, and the
interval is 1; consequently `formatRecurrence` never indexes `dayNames` out
of bounds on such a pattern. -/
theorem detectRecurrence_invariant (text : String) (p : RecurrencePattern)
    (h : Nlp.detectRecurrence text = some p) :
    (∃ n, p.interval = some n) ∧ p.dayOfMonth = none ∧
    (∀ ds, p.days = some ds →
      p.rtype = "weekly" ∧ ds ≠ [] ∧ ds.Chain' (· < ·) ∧
        (∀ d ∈ ds, d < 7) ∧ p.interval = some 1) ∧
    (Nlp.formatRecurrence p).isSome = true := by
  rw [Nlp.detectRecurrence] at h
  cases hw : Nlp.weekdayEveryBranch (JsStr.lowerL text.data) with
  | some q =>
    rw [hw] at h
    injection h with h
    obtain ⟨ds, hp, hne, hchain, hbound⟩ := weekdayEveryBranch_spec _ q hw
    subst h
    subst hp
    refine ⟨⟨1, rfl⟩, rfl, ?_, ?_⟩
    · intro ds' hds'
      injection hds' with hds'
      subst hds'
      exact ⟨rfl, hne, hchain, hbound, rfl⟩
    · refine formatRecurrence_isSome_of_valid _ ?_
      intro ds' hds' d hd
      injection hds' with hds'
      subst hds'
      exact hbound d hd
  | none =>
    rw [hw] at h
    obtain ⟨hdays, hdom, hint, _⟩ :=
      tableScan_spec _ _ p (by decide) h
    refine ⟨hint, hdom, ?_, ?_⟩
    · intro ds hds
      rw [hdays] at hds
      exact absurd hds (by simp)
    · refine formatRecurrence_isSome_of_valid p ?_
      intro ds hds
      rw [hdays] at hds
      exact absurd hds (by simp)

/-- Witness for C10 at the concrete input "every Friday". -/
theorem detectRecurrence_invariant_witness :
    (Nlp.formatRecurrence
      { rtype := "weekly", days := some [5], interval := some 1 }).isSome = true :=
  (detectRecurrence_invariant "every Friday"
    { rtype := "weekly", days := some [5], interval := some 1 } (by decide)).2.2.2

/-- C10 counterexample: "every 0 days" matches the "every N days" table row
and yields interval 0, which is not a positive integer. -/
theorem detectRecurrence_zero_interval_cex :
    Nlp.detectRecurrence "every 0 days" =
      some { rtype := "daily", interval := some 0 } ∧ ¬((0 : Nat) > 0) :=
  ⟨by decide, by decide⟩
